import Mathlib

/-!
Verification development for the `endstone-inventory-manager` persistence
layer (`db_util.py`).  The data model, the snapshot codec and the identity
index are shallowly embedded below: SQLite tables become Lean lists of row
structures, the Python dictionaries returned by the decoder become Lean
structures, and the `json` library calls are embedded by an executable
JSON value type with an encoder for the two shapes the repository
serializes (a string-to-int mapping for enchantments, a list of strings
for lore) and a general recursive-descent parser for `json.loads`.
-/

namespace InvMan

/-- JSON values, modelling the Python objects handled by `json.dumps` /
`json.loads` in `db_util.py`.  Floating point literals are not modelled:
the repository only ever stores integer enchantment levels, and the parser
below rejects fractional numbers (a divergence from Python only on inputs
the repository never writes). -/
inductive Json where
  | null : Json
  | bool (b : Bool) : Json
  | num (n : Int) : Json
  | str (s : String) : Json
  | arr (elems : List Json) : Json
  | obj (members : List (String × Json)) : Json

/-- Whitespace accepted between JSON tokens, as in Python's json parser. -/
def isWsChar (c : Char) : Bool :=
  c = ' ' || c = '\t' || c = '\n' || c = '\r'

/-- Drop leading JSON whitespace. -/
def skipWs : List Char → List Char
  | [] => []
  | c :: cs => if isWsChar c then skipWs cs else c :: cs

/-- Numeric value of a decimal digit character. -/
def digitVal (c : Char) : Nat := c.toNat - 48

/-- Parse a nonempty run of decimal digits, returning its value and the
remaining input. -/
def parseDigits (cs : List Char) : Option (Nat × List Char) :=
  match cs.takeWhile Char.isDigit with
  | [] => none
  | ds => some (ds.foldl (fun a c => a * 10 + digitVal c) 0, cs.dropWhile Char.isDigit)

/-- Parse a JSON integer literal (optional minus sign, then digits). -/
def parseNumber (cs : List Char) : Option (Json × List Char) :=
  match cs with
  | [] => none
  | c :: rest =>
    if c = '-' then
      match parseDigits rest with
      | some (n, r) => some (Json.num (-(n : Int)), r)
      | none => none
    else
      match parseDigits (c :: rest) with
      | some (n, r) => some (Json.num (n : Int), r)
      | none => none

/-- Resolve a character found after a backslash in a JSON string literal. -/
def unescapeChar (c : Char) : Option Char :=
  if c = '"' then some '"'
  else if c = '\\' then some '\\'
  else if c = '/' then some '/'
  else if c = 'n' then some '\n'
  else if c = 't' then some '\t'
  else if c = 'r' then some '\r'
  else if c = 'b' then some (Char.ofNat 8)
  else if c = 'f' then some (Char.ofNat 12)
  else none

/-- Parse the body of a JSON string literal (the opening quote already
consumed), up to and including the closing quote. -/
def parseStringBody : List Char → Option (List Char × List Char)
  | [] => none
  | c :: rest =>
    if c = '"' then some ([], rest)
    else if c = '\\' then
      match rest with
      | [] => none
      | e :: rest2 =>
        match unescapeChar e with
        | none => none
        | some u =>
          match parseStringBody rest2 with
          | none => none
          | some (s, r) => some (u :: s, r)
    else
      match parseStringBody rest with
      | none => none
      | some (s, r) => some (c :: s, r)

/-- Task of the fueled JSON parser: parse one value, the remaining elements
of an array, or the remaining members of an object. -/
inductive PTask where
  | value (cs : List Char) : PTask
  | elems (cs : List Char) (acc : List Json) : PTask
  | mems (cs : List Char) (acc : List (String × Json)) : PTask

/-- Expect the literal tail `lit` (of `null` / `true` / `false`). -/
def litRest (lit : List Char) (cs : List Char) (v : Json) : Option (Json × List Char) :=
  if lit.isPrefixOf cs then some (v, cs.drop lit.length) else none

/-- One fueled step of the recursive-descent JSON parser.  Fuel only bounds
the recursion depth; `json_loads` supplies enough for any input. -/
def pstep : Nat → PTask → Option (Json × List Char)
  | 0, _ => none
  | fuel + 1, PTask.value cs =>
    match skipWs cs with
    | [] => none
    | c :: rest =>
      if c = 'n' then litRest ['u', 'l', 'l'] rest Json.null
      else if c = 't' then litRest ['r', 'u', 'e'] rest (Json.bool true)
      else if c = 'f' then litRest ['a', 'l', 's', 'e'] rest (Json.bool false)
      else if c = '"' then
        match parseStringBody rest with
        | none => none
        | some (s, r) => some (Json.str (String.mk s), r)
      else if c = '[' then
        match skipWs rest with
        | [] => none
        | d :: rest2 =>
          if d = ']' then some (Json.arr [], rest2)
          else pstep fuel (PTask.elems (d :: rest2) [])
      else if c = '{' then
        match skipWs rest with
        | [] => none
        | d :: rest2 =>
          if d = '}' then some (Json.obj [], rest2)
          else pstep fuel (PTask.mems (d :: rest2) [])
      else if c = '-' || c.isDigit then parseNumber (c :: rest)
      else none
  | fuel + 1, PTask.elems cs acc =>
    match pstep fuel (PTask.value cs) with
    | none => none
    | some (v, rest) =>
      match skipWs rest with
      | [] => none
      | d :: r =>
        if d = ',' then pstep fuel (PTask.elems r (acc ++ [v]))
        else if d = ']' then some (Json.arr (acc ++ [v]), r)
        else none
  | fuel + 1, PTask.mems cs acc =>
    match skipWs cs with
    | [] => none
    | c :: rest =>
      if c = '"' then
        match parseStringBody rest with
        | none => none
        | some (k, rest2) =>
          match skipWs rest2 with
          | [] => none
          | d :: rest3 =>
            if d = ':' then
              match pstep fuel (PTask.value rest3) with
              | none => none
              | some (v, rest4) =>
                match skipWs rest4 with
                | [] => none
                | d2 :: r =>
                  if d2 = ',' then pstep fuel (PTask.mems r (acc ++ [(String.mk k, v)]))
                  else if d2 = '}' then some (Json.obj (acc ++ [(String.mk k, v)]), r)
                  else none
            else none
      else none

/-- Embedding of `json.loads`: parse one JSON value, require only trailing
whitespace afterwards, `none` on any parse error (Python raises). -/
def json_loads (s : String) : Option Json :=
  match pstep (s.data.length + 1) (PTask.value s.data) with
  | some (v, rest) => if skipWs rest = [] then some v else none
  | none => none

/-- Escaping of one character inside a JSON string literal, as produced by
`json.dumps`.  (Python additionally escapes control and non-ASCII
characters; that difference in wire format is unobservable through the
round trip and no claim mentions such characters.) -/
def escChar (c : Char) : List Char :=
  if c = '\\' then ['\\', '\\']
  else if c = '"' then ['\\', '"']
  else [c]

/-- Escaped body of a JSON string literal. -/
def escBody (cs : List Char) : List Char := (cs.map escChar).flatten

/-- A full JSON string literal for `s`, quotes included. -/
def quoteChars (s : String) : List Char := '"' :: escBody s.data ++ ['"']

/-- The decimal digit character for a digit value below ten. -/
def digitChar : Nat → Char
  | 0 => '0'
  | 1 => '1'
  | 2 => '2'
  | 3 => '3'
  | 4 => '4'
  | 5 => '5'
  | 6 => '6'
  | 7 => '7'
  | 8 => '8'
  | _ => '9'

/-- Decimal rendering of a natural number, as Python's str(). -/
def renderNat (n : Nat) : List Char :=
  if n = 0 then ['0'] else (Nat.digits 10 n).reverse.map digitChar

/-- Decimal rendering of an integer, as Python's str(). -/
def renderInt (i : Int) : List Char :=
  if i < 0 then '-' :: renderNat i.natAbs else renderNat i.natAbs

/-- Join chunks with the default `json.dumps` item separator (a comma and
a space). -/
def sepJoin : List (List Char) → List Char
  | [] => []
  | [x] => x
  | x :: xs => x ++ ',' :: ' ' :: sepJoin xs

/-- One `"key": value` member of the serialized enchantment dictionary. -/
def enchMemChars (p : String × Int) : List Char :=
  quoteChars p.1 ++ ':' :: ' ' :: renderInt p.2

/-- `json.dumps(enchants)` for an enchantment dictionary, as a character
list. -/
def dumpsEnchantsChars (e : List (String × Int)) : List Char :=
  '{' :: sepJoin (e.map enchMemChars) ++ ['}']

/-- `json.dumps(enchants)` for an enchantment dictionary. -/
def dumpsEnchants (e : List (String × Int)) : String :=
  String.mk (dumpsEnchantsChars e)

/-- `json.dumps(lore)` for a lore line list, as a character list. -/
def dumpsLoreChars (l : List String) : List Char :=
  '[' :: sepJoin (l.map quoteChars) ++ [']']

/-- `json.dumps(lore)` for a lore line list. -/
def dumpsLore (l : List String) : String :=
  String.mk (dumpsLoreChars l)

/-- The JSON value `json.loads` recovers from a serialized enchantment
dictionary. -/
def jsonOfEnch (e : List (String × Int)) : Json :=
  Json.obj (e.map fun p => (p.1, Json.num p.2))

/-- The JSON value `json.loads` recovers from a serialized lore list. -/
def jsonOfLore (l : List String) : Json :=
  Json.arr (l.map Json.str)

/-! ### Correctness of the JSON codec on the shapes the repository stores -/

theorem skipWs_cons_of_not_ws {c : Char} (h : isWsChar c = false) (cs : List Char) :
    skipWs (c :: cs) = c :: cs := by
  simp [skipWs, h]

theorem parseStringBody_escBody (l rest : List Char) :
    parseStringBody (escBody l ++ '"' :: rest) = some (l, rest) := by
  induction l with
  | nil =>
    rw [show escBody [] = [] from rfl, List.nil_append, parseStringBody.eq_def]
    simp
  | cons c t ih =>
    have hb : escBody (c :: t) = escChar c ++ escBody t := by
      simp [escBody]
    rw [hb, List.append_assoc]
    by_cases h1 : c = '\\'
    · subst h1
      rw [show escChar '\\' = ['\\', '\\'] from rfl]
      rw [show ['\\', '\\'] ++ (escBody t ++ '"' :: rest)
            = '\\' :: '\\' :: (escBody t ++ '"' :: rest) from rfl]
      rw [parseStringBody.eq_def]
      simp [unescapeChar, ih]
    · by_cases h2 : c = '"'
      · subst h2
        rw [show escChar '"' = ['\\', '"'] from rfl]
        rw [show ['\\', '"'] ++ (escBody t ++ '"' :: rest)
              = '\\' :: '"' :: (escBody t ++ '"' :: rest) from rfl]
        rw [parseStringBody.eq_def]
        simp [unescapeChar, ih]
      · rw [show escChar c = [c] by simp [escChar, h1, h2]]
        rw [List.singleton_append, parseStringBody.eq_def]
        simp [h1, h2, ih]

theorem digitVal_digitChar {d : Nat} (hd : d < 10) : digitVal (digitChar d) = d := by
  interval_cases d <;> decide

theorem isDigit_digitChar {d : Nat} (hd : d < 10) : (digitChar d).isDigit = true := by
  interval_cases d <;> decide

theorem ne_of_isDigit {c x : Char} (hc : c.isDigit = true) (hx : x.isDigit = false) :
    c ≠ x := by
  intro h
  rw [h, hx] at hc
  cases hc

theorem isWs_false_of_isDigit {c : Char} (hc : c.isDigit = true) : isWsChar c = false := by
  have h1 : c ≠ ' ' := ne_of_isDigit hc (by decide)
  have h2 : c ≠ '\t' := ne_of_isDigit hc (by decide)
  have h3 : c ≠ '\n' := ne_of_isDigit hc (by decide)
  have h4 : c ≠ '\r' := ne_of_isDigit hc (by decide)
  simp [isWsChar, h1, h2, h3, h4]

theorem foldr_digitChar_val (L : List Nat) (hL : ∀ d ∈ L, d < 10) (a : Nat) :
    (L.map digitChar).foldr (fun c acc => acc * 10 + digitVal c) a
      = a * 10 ^ L.length + Nat.ofDigits 10 L := by
  induction L with
  | nil => simp [Nat.ofDigits]
  | cons d L' ih =>
    have hd : d < 10 := hL d (by simp)
    have ih' := ih (fun x hx => hL x (by simp [hx]))
    simp only [List.map_cons, List.foldr_cons, ih', Nat.ofDigits_cons,
      digitVal_digitChar hd, List.length_cons]
    ring

theorem renderNat_all_digits (n : Nat) : ∀ c ∈ renderNat n, c.isDigit = true := by
  intro c hc
  unfold renderNat at hc
  split at hc
  · simp at hc
    subst hc
    decide
  · simp only [List.mem_map, List.mem_reverse] at hc
    obtain ⟨d, hd, hdc⟩ := hc
    subst hdc
    exact isDigit_digitChar (Nat.digits_lt_base (by norm_num) hd)

theorem renderNat_ne_nil (n : Nat) : renderNat n ≠ [] := by
  unfold renderNat
  split
  · simp
  · simp [Nat.digits_ne_nil_iff_ne_zero.mpr (by assumption)]

theorem renderNat_head (n : Nat) :
    ∃ c t, renderNat n = c :: t ∧ c.isDigit = true := by
  cases h : renderNat n with
  | nil => exact absurd h (renderNat_ne_nil n)
  | cons c t =>
    exact ⟨c, t, rfl, renderNat_all_digits n c (by rw [h]; simp)⟩

/-- The remaining input after a number token must not begin with a digit
(the parser is greedy).  All continuations produced by the serializer
start with a separator or a closing bracket. -/
def headNotDigit : List Char → Prop
  | [] => True
  | c :: _ => c.isDigit = false

theorem takeWhile_digits_append (l rest : List Char)
    (hl : ∀ c ∈ l, c.isDigit = true) (hr : headNotDigit rest) :
    (l ++ rest).takeWhile Char.isDigit = l
      ∧ (l ++ rest).dropWhile Char.isDigit = rest := by
  induction l with
  | nil =>
    cases rest with
    | nil => simp
    | cons c t =>
      have hc : c.isDigit = false := hr
      simp [List.takeWhile, List.dropWhile, hc]
  | cons c l' ih =>
    have hc : c.isDigit = true := hl c (by simp)
    have ih' := ih (fun x hx => hl x (by simp [hx]))
    simp [List.takeWhile_cons, List.dropWhile_cons, hc, ih'.1, ih'.2]

theorem foldl_renderNat (n : Nat) :
    (renderNat n).foldl (fun a c => a * 10 + digitVal c) 0 = n := by
  unfold renderNat
  split
  · subst_eqs
    decide
  · rw [List.map_reverse, List.foldl_reverse]
    rw [foldr_digitChar_val _ (fun d hd => Nat.digits_lt_base (by norm_num) hd) 0]
    simp [Nat.ofDigits_digits]

theorem parseDigits_renderNat (n : Nat) (rest : List Char) (hr : headNotDigit rest) :
    parseDigits (renderNat n ++ rest) = some (n, rest) := by
  obtain ⟨c, t, hct, -⟩ := renderNat_head n
  have htw := takeWhile_digits_append (renderNat n) rest (renderNat_all_digits n) hr
  unfold parseDigits
  rw [htw.1, htw.2, hct]
  simp only []
  rw [← hct, foldl_renderNat]

theorem parseNumber_renderInt (i : Int) (rest : List Char) (hr : headNotDigit rest) :
    parseNumber (renderInt i ++ rest) = some (Json.num i, rest) := by
  unfold renderInt
  split
  · rename_i hneg
    simp only [List.cons_append, parseNumber, if_pos rfl]
    rw [parseDigits_renderNat _ _ hr]
    show some (Json.num (-((i.natAbs : Nat) : Int)), rest) = some (Json.num i, rest)
    have h : -((i.natAbs : Nat) : Int) = i := by omega
    rw [h]
  · rename_i hpos
    obtain ⟨c, t, hct, hdig⟩ := renderNat_head i.natAbs
    rw [hct, List.cons_append]
    have hcm : c ≠ '-' := ne_of_isDigit hdig (by decide)
    simp only [parseNumber, if_neg hcm]
    rw [← List.cons_append, ← hct, parseDigits_renderNat _ _ hr]
    show some (Json.num ((i.natAbs : Nat) : Int), rest) = some (Json.num i, rest)
    have h : ((i.natAbs : Nat) : Int) = i := by omega
    rw [h]

theorem string_mk_data (s : String) : String.mk s.data = s := rfl

theorem pstep_value_str (fuel : Nat) (s : String) (rest cs : List Char)
    (hfuel : 1 ≤ fuel) (hcs : skipWs cs = quoteChars s ++ rest) :
    pstep fuel (PTask.value cs) = some (Json.str s, rest) := by
  obtain ⟨f, rfl⟩ : ∃ f, fuel = f + 1 := ⟨fuel - 1, by omega⟩
  rw [show quoteChars s ++ rest = '"' :: (escBody s.data ++ '"' :: rest) by
    simp [quoteChars]] at hcs
  simp only [pstep, hcs]
  rw [parseStringBody_escBody]
  simp [string_mk_data]

theorem pstep_value_num (fuel : Nat) (i : Int) (rest cs : List Char)
    (hfuel : 1 ≤ fuel) (hcs : skipWs cs = renderInt i ++ rest)
    (hr : headNotDigit rest) :
    pstep fuel (PTask.value cs) = some (Json.num i, rest) := by
  obtain ⟨f, rfl⟩ : ∃ f, fuel = f + 1 := ⟨fuel - 1, by omega⟩
  by_cases hneg : i < 0
  · have hri : renderInt i = '-' :: renderNat i.natAbs := by
      simp [renderInt, hneg]
    rw [hri, List.cons_append] at hcs
    have hp := parseNumber_renderInt i rest hr
    rw [hri, List.cons_append] at hp
    simp only [pstep, hcs]
    simp [hp]
  · have hri : renderInt i = renderNat i.natAbs := by
      simp [renderInt, hneg]
    obtain ⟨c, t, hct, hdig⟩ := renderNat_head i.natAbs
    rw [hri, hct, List.cons_append] at hcs
    have hn : c ≠ 'n' := ne_of_isDigit hdig (by decide)
    have htc : c ≠ 't' := ne_of_isDigit hdig (by decide)
    have hfc : c ≠ 'f' := ne_of_isDigit hdig (by decide)
    have hq : c ≠ '"' := ne_of_isDigit hdig (by decide)
    have hlb : c ≠ '[' := ne_of_isDigit hdig (by decide)
    have hcb : c ≠ '{' := ne_of_isDigit hdig (by decide)
    have hp := parseNumber_renderInt i rest hr
    rw [hri, hct, List.cons_append] at hp
    simp only [pstep, hcs]
    simp [hn, htc, hfc, hq, hlb, hcb, hdig, hp]

theorem sepJoin_quote_head (x : String) (xs : List String) :
    ∃ t, sepJoin ((x :: xs).map quoteChars) = '"' :: t := by
  cases xs with
  | nil => exact ⟨escBody x.data ++ ['"'], by simp [sepJoin, quoteChars]⟩
  | cons y ys =>
    refine ⟨escBody x.data ++ ['"'] ++ ',' :: ' ' :: sepJoin ((y :: ys).map quoteChars), ?_⟩
    simp [sepJoin, quoteChars]

theorem sepJoin_ench_head (p : String × Int) (ps : List (String × Int)) :
    ∃ t, sepJoin ((p :: ps).map enchMemChars) = '"' :: t := by
  cases ps with
  | nil =>
    exact ⟨escBody p.1.data ++ ['"'] ++ ':' :: ' ' :: renderInt p.2, by
      simp [sepJoin, enchMemChars, quoteChars]⟩
  | cons q qs =>
    refine ⟨escBody p.1.data ++ ['"'] ++ ':' :: ' ' :: renderInt p.2
      ++ ',' :: ' ' :: sepJoin ((q :: qs).map enchMemChars), ?_⟩
    simp [sepJoin, enchMemChars, quoteChars]

theorem pstep_elems_lore (l : List String) :
    ∀ fuel acc rest cs, l ≠ [] → l.length + 1 ≤ fuel →
      skipWs cs = sepJoin (l.map quoteChars) ++ ']' :: rest →
      pstep fuel (PTask.elems cs acc)
        = some (Json.arr (acc ++ l.map Json.str), rest) := by
  induction l with
  | nil => intro _ _ _ _ hne _ _; exact absurd rfl hne
  | cons x xs ih =>
    intro fuel acc rest cs _ hfuel hcs
    obtain ⟨f, rfl⟩ : ∃ f, fuel = f + 1 := ⟨fuel - 1, by omega⟩
    have h1f : 1 ≤ f := by simp at hfuel; omega
    cases xs with
    | nil =>
      rw [show sepJoin ([x].map quoteChars) = quoteChars x by simp [sepJoin]] at hcs
      simp only [pstep]
      rw [pstep_value_str f x (']' :: rest) cs h1f hcs]
      simp [skipWs, isWsChar]
    | cons y ys =>
      rw [show sepJoin ((x :: y :: ys).map quoteChars)
            = quoteChars x ++ ',' :: ' ' :: sepJoin ((y :: ys).map quoteChars) by
        simp [sepJoin]] at hcs
      rw [List.append_assoc] at hcs
      obtain ⟨t, ht⟩ := sepJoin_quote_head y ys
      have hskip : skipWs (' ' :: (sepJoin ((y :: ys).map quoteChars) ++ ']' :: rest))
          = sepJoin ((y :: ys).map quoteChars) ++ ']' :: rest := by
        rw [show skipWs (' ' :: (sepJoin ((y :: ys).map quoteChars) ++ ']' :: rest))
              = skipWs (sepJoin ((y :: ys).map quoteChars) ++ ']' :: rest) by
          simp [skipWs, isWsChar]]
        rw [ht, List.cons_append]
        apply skipWs_cons_of_not_ws
        decide
      have hIH := ih f (acc ++ [Json.str x]) rest
        (' ' :: (sepJoin ((y :: ys).map quoteChars) ++ ']' :: rest))
        (by simp) (by simp at hfuel ⊢; omega) hskip
      simp only [pstep]
      rw [pstep_value_str f x _ cs h1f hcs]
      simp [List.cons_append, skipWs, isWsChar]
      simpa using hIH

theorem pstep_mems_ench (e : List (String × Int)) :
    ∀ fuel acc rest cs, e ≠ [] → e.length + 1 ≤ fuel →
      skipWs cs = sepJoin (e.map enchMemChars) ++ '}' :: rest →
      pstep fuel (PTask.mems cs acc)
        = some (Json.obj (acc ++ e.map fun p => (p.1, Json.num p.2)), rest) := by
  induction e with
  | nil => intro _ _ _ _ hne _ _; exact absurd rfl hne
  | cons p ps ih =>
    intro fuel acc rest cs _ hfuel hcs
    obtain ⟨f, rfl⟩ : ∃ f, fuel = f + 1 := ⟨fuel - 1, by omega⟩
    have h1f : 1 ≤ f := by simp at hfuel; omega
    have hwsnum : ∀ tail : List Char, skipWs (' ' :: (renderInt p.2 ++ tail))
        = renderInt p.2 ++ tail := by
      intro tail
      rw [show skipWs (' ' :: (renderInt p.2 ++ tail))
            = skipWs (renderInt p.2 ++ tail) by simp [skipWs, isWsChar]]
      by_cases hneg : p.2 < 0
      · rw [show renderInt p.2 = '-' :: renderNat p.2.natAbs by simp [renderInt, hneg],
          List.cons_append]
        apply skipWs_cons_of_not_ws
        decide
      · obtain ⟨c, t, hct, hdig⟩ := renderNat_head p.2.natAbs
        rw [show renderInt p.2 = renderNat p.2.natAbs by simp [renderInt, hneg], hct,
          List.cons_append]
        exact skipWs_cons_of_not_ws (isWs_false_of_isDigit hdig) _
    cases ps with
    | nil =>
      rw [show sepJoin ([p].map enchMemChars) = enchMemChars p by simp [sepJoin]] at hcs
      rw [show enchMemChars p ++ '}' :: rest
            = '"' :: (escBody p.1.data ++ '"' :: (':' :: ' ' :: (renderInt p.2 ++ '}' :: rest))) by
        simp [enchMemChars, quoteChars]] at hcs
      have hv := pstep_value_num f p.2 ('}' :: rest)
        (' ' :: (renderInt p.2 ++ '}' :: rest)) h1f (hwsnum ('}' :: rest))
        (by show ('}' : Char).isDigit = false; decide)
      simp only [pstep, hcs]
      rw [parseStringBody_escBody]
      simp [skipWs, isWsChar, hv, string_mk_data]
    | cons q qs =>
      rw [show sepJoin ((p :: q :: qs).map enchMemChars)
            = enchMemChars p ++ ',' :: ' ' :: sepJoin ((q :: qs).map enchMemChars) by
        simp [sepJoin]] at hcs
      rw [show enchMemChars p ++ ',' :: ' ' :: sepJoin ((q :: qs).map enchMemChars) ++ '}' :: rest
            = '"' :: (escBody p.1.data ++ '"' :: (':' :: ' ' :: (renderInt p.2
                ++ ',' :: (' ' :: (sepJoin ((q :: qs).map enchMemChars) ++ '}' :: rest))))) by
        simp [enchMemChars, quoteChars]] at hcs
      have hv := pstep_value_num f p.2 (',' :: (' ' :: (sepJoin ((q :: qs).map enchMemChars)
            ++ '}' :: rest)))
        (' ' :: (renderInt p.2 ++ ',' :: (' ' :: (sepJoin ((q :: qs).map enchMemChars)
            ++ '}' :: rest)))) h1f
        (hwsnum (',' :: (' ' :: (sepJoin ((q :: qs).map enchMemChars) ++ '}' :: rest))))
        (by show (',' : Char).isDigit = false; decide)
      obtain ⟨t, ht⟩ := sepJoin_ench_head q qs
      have hskip : skipWs (' ' :: (sepJoin ((q :: qs).map enchMemChars) ++ '}' :: rest))
          = sepJoin ((q :: qs).map enchMemChars) ++ '}' :: rest := by
        rw [show skipWs (' ' :: (sepJoin ((q :: qs).map enchMemChars) ++ '}' :: rest))
              = skipWs (sepJoin ((q :: qs).map enchMemChars) ++ '}' :: rest) by
          simp [skipWs, isWsChar]]
        rw [ht, List.cons_append]
        apply skipWs_cons_of_not_ws
        decide
      have hIH := ih f (acc ++ [(String.mk p.1.data, Json.num p.2)]) rest
        (' ' :: (sepJoin ((q :: qs).map enchMemChars) ++ '}' :: rest))
        (by simp) (by simp at hfuel ⊢; omega) hskip
      simp only [List.map_cons] at hv hIH
      simp only [pstep, hcs]
      rw [parseStringBody_escBody]
      simp [skipWs, isWsChar, hv, string_mk_data]
      simpa [string_mk_data] using hIH

theorem pstep_value_ench (e : List (String × Int)) (fuel : Nat) (rest cs : List Char)
    (hfuel : e.length + 2 ≤ fuel) (hcs : skipWs cs = dumpsEnchantsChars e ++ rest) :
    pstep fuel (PTask.value cs) = some (jsonOfEnch e, rest) := by
  obtain ⟨f, rfl⟩ : ∃ f, fuel = f + 1 := ⟨fuel - 1, by omega⟩
  cases e with
  | nil =>
    rw [show dumpsEnchantsChars [] ++ rest = '{' :: '}' :: rest by
      simp [dumpsEnchantsChars, sepJoin]] at hcs
    simp only [pstep, hcs]
    simp [skipWs, isWsChar, jsonOfEnch]
  | cons p ps =>
    obtain ⟨t, ht⟩ := sepJoin_ench_head p ps
    rw [show dumpsEnchantsChars (p :: ps) ++ rest
          = '{' :: (sepJoin ((p :: ps).map enchMemChars) ++ '}' :: rest) by
      simp [dumpsEnchantsChars]] at hcs
    have hm := pstep_mems_ench (p :: ps) f [] rest
      (sepJoin ((p :: ps).map enchMemChars) ++ '}' :: rest) (by simp)
      (by simp at hfuel ⊢; omega)
      (by rw [ht, List.cons_append]; apply skipWs_cons_of_not_ws; decide)
    simp only [pstep, hcs]
    simp only [ht, List.cons_append] at hm ⊢
    simp [skipWs, isWsChar, hm, jsonOfEnch]

theorem pstep_value_lore (l : List String) (fuel : Nat) (rest cs : List Char)
    (hfuel : l.length + 2 ≤ fuel) (hcs : skipWs cs = dumpsLoreChars l ++ rest) :
    pstep fuel (PTask.value cs) = some (jsonOfLore l, rest) := by
  obtain ⟨f, rfl⟩ : ∃ f, fuel = f + 1 := ⟨fuel - 1, by omega⟩
  cases l with
  | nil =>
    rw [show dumpsLoreChars [] ++ rest = '[' :: ']' :: rest by
      simp [dumpsLoreChars, sepJoin]] at hcs
    simp only [pstep, hcs]
    simp [skipWs, isWsChar, jsonOfLore]
  | cons x xs =>
    obtain ⟨t, ht⟩ := sepJoin_quote_head x xs
    rw [show dumpsLoreChars (x :: xs) ++ rest
          = '[' :: (sepJoin ((x :: xs).map quoteChars) ++ ']' :: rest) by
      simp [dumpsLoreChars]] at hcs
    have hm := pstep_elems_lore (x :: xs) f [] rest
      (sepJoin ((x :: xs).map quoteChars) ++ ']' :: rest) (by simp)
      (by simp at hfuel ⊢; omega)
      (by rw [ht, List.cons_append]; apply skipWs_cons_of_not_ws; decide)
    simp only [pstep, hcs]
    simp only [ht, List.cons_append] at hm ⊢
    simp [skipWs, isWsChar, hm, jsonOfLore]

theorem length_sepJoin_ge (L : List (List Char)) (hL : ∀ x ∈ L, x ≠ []) :
    L.length ≤ (sepJoin L).length + 1 := by
  induction L with
  | nil => simp
  | cons x xs ih =>
    cases xs with
    | nil => simp [sepJoin]
    | cons y ys =>
      have hx : x ≠ [] := hL x (by simp)
      have h1 : 1 ≤ x.length := by
        cases x with
        | nil => exact absurd rfl hx
        | cons c t => simp
      have ih' := ih (fun z hz => hL z (by simp [hz]))
      rw [show sepJoin (x :: y :: ys) = x ++ ',' :: ' ' :: sepJoin (y :: ys) from rfl]
      simp at ih' ⊢
      omega

theorem enchMemChars_ne_nil (p : String × Int) : enchMemChars p ≠ [] := by
  simp [enchMemChars, quoteChars]

theorem quoteChars_ne_nil (s : String) : quoteChars s ≠ [] := by
  simp [quoteChars]

/-- Round trip of the serialized enchantment dictionary through the JSON
parser: `json.loads(json.dumps(enchants))` recovers the mapping. -/
theorem json_loads_dumpsEnchants (e : List (String × Int)) :
    json_loads (dumpsEnchants e) = some (jsonOfEnch e) := by
  unfold json_loads dumpsEnchants
  rw [show (String.mk (dumpsEnchantsChars e)).data = dumpsEnchantsChars e from rfl]
  have hlen : e.length + 2 ≤ (dumpsEnchantsChars e).length + 1 := by
    have hs := length_sepJoin_ge (e.map enchMemChars) (by
      intro x hx
      simp only [List.mem_map] at hx
      obtain ⟨p, -, rfl⟩ := hx
      exact enchMemChars_ne_nil p)
    simp only [dumpsEnchantsChars, List.length_map] at hs ⊢
    simp only [List.length_cons, List.length_append, List.length_singleton] at hs ⊢
    omega
  have hcs : skipWs (dumpsEnchantsChars e) = dumpsEnchantsChars e ++ ([] : List Char) := by
    rw [List.append_nil]
    rw [show dumpsEnchantsChars e = '{' :: (sepJoin (e.map enchMemChars) ++ ['}']) from rfl]
    apply skipWs_cons_of_not_ws
    decide
  rw [pstep_value_ench e _ [] _ hlen hcs]
  simp [skipWs]

/-- Round trip of the serialized lore list through the JSON parser:
`json.loads(json.dumps(lore))` recovers the line list. -/
theorem json_loads_dumpsLore (l : List String) :
    json_loads (dumpsLore l) = some (jsonOfLore l) := by
  unfold json_loads dumpsLore
  rw [show (String.mk (dumpsLoreChars l)).data = dumpsLoreChars l from rfl]
  have hlen : l.length + 2 ≤ (dumpsLoreChars l).length + 1 := by
    have hs := length_sepJoin_ge (l.map quoteChars) (by
      intro x hx
      simp only [List.mem_map] at hx
      obtain ⟨s, -, rfl⟩ := hx
      exact quoteChars_ne_nil s)
    simp only [dumpsLoreChars, List.length_map] at hs ⊢
    simp only [List.length_cons, List.length_append, List.length_singleton] at hs ⊢
    omega
  have hcs : skipWs (dumpsLoreChars l) = dumpsLoreChars l ++ ([] : List Char) := by
    rw [List.append_nil]
    rw [show dumpsLoreChars l = '[' :: (sepJoin (l.map quoteChars) ++ [']']) from rfl]
    apply skipWs_cons_of_not_ws
    decide
  rw [pstep_value_lore l _ [] _ hlen hcs]
  simp [skipWs]

/-- A serialized enchantment dictionary always begins with a brace, so it
is never one of the decoder's sentinel strings. -/
theorem dumpsEnchants_not_sentinel (e : List (String × Int)) :
    dumpsEnchants e ≠ "" ∧ dumpsEnchants e ≠ "null" ∧ dumpsEnchants e ≠ "0" := by
  refine ⟨?_, ?_, ?_⟩ <;>
    · intro h
      have hd := congrArg String.data h
      simp [dumpsEnchants, dumpsEnchantsChars] at hd

/-- A serialized lore list always begins with a bracket, so it is never
one of the decoder's sentinel strings. -/
theorem dumpsLore_not_sentinel (l : List String) :
    dumpsLore l ≠ "" ∧ dumpsLore l ≠ "null" ∧ dumpsLore l ≠ "0" := by
  refine ⟨?_, ?_, ?_⟩ <;>
    · intro h
      have hd := congrArg String.data h
      simp [dumpsLore, dumpsLoreChars] at hd

/-! ### SQL LIKE matching, used by the identity-index name queries -/

/-- Run a predicate over every suffix of the input; used for the LIKE
percent wildcard, which absorbs any run of characters. -/
def anySuffix (f : List Char → Bool) : List Char → Bool
  | [] => f []
  | c :: s => f (c :: s) || anySuffix f s

/-- SQLite LIKE matching over characters: a percent sign matches any run
of characters, an underscore matches exactly one character, anything else
matches itself.  The queries in `db_util.py` lowercase both sides first,
so the character comparison here is plain equality. -/
def like : List Char → List Char → Bool
  | [], s => s.isEmpty
  | '%' :: ps, s => anySuffix (like ps) s
  | '_' :: ps, s =>
    match s with
    | [] => false
    | _ :: s2 => like ps s2
  | c :: ps, s =>
    match s with
    | [] => false
    | d :: s2 => c = d && like ps s2

/-- Modelled from the spec: a stored name matches a pattern iff the
lowercase stored name contains the lowercase pattern as a contiguous
substring.  `containsSub hay pat` decides whether `pat` occurs inside
`hay`. -/
def containsSub : List Char → List Char → Bool
  | [], pat => pat.isEmpty
  | c :: t, pat => pat.isPrefixOf (c :: t) || containsSub t pat

theorem anySuffix_congr (f g : List Char → Bool) (h : ∀ t, f t = g t) :
    ∀ s, anySuffix f s = anySuffix g s := by
  intro s
  induction s with
  | nil => simp [anySuffix, h]
  | cons c s2 ih => simp [anySuffix, h, ih]

theorem anySuffix_isEmpty (s : List Char) :
    anySuffix (fun t => t.isEmpty) s = true := by
  induction s with
  | nil => rfl
  | cons c s2 ih => simp [anySuffix, ih]

theorem like_nil (s : List Char) : like [] s = s.isEmpty := by
  cases s <;> rfl

/-- A metacharacter-free LIKE pattern followed by a single percent matches
exactly the inputs it is a prefix of. -/
theorem like_literal_percent (p : List Char) (hp : ∀ c ∈ p, c ≠ '%' ∧ c ≠ '_') :
    ∀ t, like (p ++ ['%']) t = p.isPrefixOf t := by
  induction p with
  | nil =>
    intro t
    rw [show (([] : List Char) ++ ['%']) = ['%'] from rfl]
    rw [show like ['%'] t = anySuffix (like []) t from rfl]
    rw [anySuffix_congr (like []) (fun t => t.isEmpty) like_nil t]
    rw [anySuffix_isEmpty]
    cases t <;> rfl
  | cons c p' ih =>
    intro t
    have hc := hp c (by simp)
    have ih' := ih (fun x hx => hp x (by simp [hx]))
    rw [show ((c :: p') ++ ['%']) = c :: (p' ++ ['%']) from rfl]
    cases t with
    | nil =>
      simp [like, hc.1, hc.2, List.isPrefixOf]
    | cons d t2 =>
      by_cases hcd : c = d
      · subst hcd
        simp [like, hc.1, hc.2, ih', List.isPrefixOf]
      · simp [like, hc.1, hc.2, ih', List.isPrefixOf, hcd]

theorem anySuffix_isPrefixOf (p : List Char) (s : List Char) :
    anySuffix (fun t => p.isPrefixOf t) s = containsSub s p := by
  induction s with
  | nil =>
    cases p <;> rfl
  | cons c s2 ih => simp [anySuffix, containsSub, ih]

/-- On metacharacter-free patterns, the LIKE query with a percent on both
sides is exactly substring containment. -/
theorem like_eq_containsSub (p s : List Char) (hp : ∀ c ∈ p, c ≠ '%' ∧ c ≠ '_') :
    like ('%' :: (p ++ ['%'])) s = containsSub s p := by
  rw [show like ('%' :: (p ++ ['%'])) s = anySuffix (like (p ++ ['%'])) s from rfl]
  rw [anySuffix_congr _ _ (like_literal_percent p hp) s]
  exact anySuffix_isPrefixOf p s

theorem char_toNat_ofNat {n : Nat} (h : n < 55296) : (Char.ofNat n).toNat = n := by
  have hv : Nat.isValidChar n := Or.inl h
  simp [Char.ofNat, hv, Char.ofNatAux, Char.toNat, UInt32.ofNat', UInt32.toNat,
    BitVec.toNat_ofNatLt]

theorem toLower_ne_percent {c : Char} (h1 : c ≠ '%') : c.toLower ≠ '%' := by
  unfold Char.toLower
  simp only []
  split
  · rename_i h
    intro hc
    have h2 := char_toNat_ofNat (n := c.toNat + 32) (by omega)
    rw [hc] at h2
    rw [show ('%' : Char).toNat = 37 from rfl] at h2
    omega
  · exact h1

theorem toLower_ne_underscore {c : Char} (h1 : c ≠ '_') : c.toLower ≠ '_' := by
  unfold Char.toLower
  simp only []
  split
  · rename_i h
    intro hc
    have h2 := char_toNat_ofNat (n := c.toNat + 32) (by omega)
    rw [hc] at h2
    rw [show ('_' : Char).toNat = 95 from rfl] at h2
    omega
  · exact h1

/-! ### Data model: table rows, database state, live player state -/

/-- A row of the `users` table: `xuid TEXT PRIMARY KEY, name TEXT NOT NULL,
last_join INTEGER DEFAULT 0, last_leave INTEGER DEFAULT 0`. -/
structure UserRow where
  xuid : String
  name : String
  last_join : Int
  last_leave : Int
deriving DecidableEq

/-- A row of the `inventories` table.  Columns the decoder guards against
NULL for are modelled as `Option` (SQLite enforces NOT NULL only on some
of them; `get_inventory` defends against NULL on all of these). -/
structure InvRow where
  xuid : String
  name : String
  slot_type : String
  slot : Option Int
  type : Option String
  amount : Option Int
  damage : Option Int
  display_name : Option String
  enchants : Option String
  lore : Option String
  unbreakable : Option Int
  data : Option Int
deriving DecidableEq

/-- A row of the `ender_chests` table (no `slot_type` column). -/
structure EnderRow where
  xuid : String
  name : String
  slot : Option Int
  type : Option String
  amount : Option Int
  damage : Option Int
  display_name : Option String
  enchants : Option String
  lore : Option String
  unbreakable : Option Int
  data : Option Int
deriving DecidableEq

/-- The whole store: the three tables created by `create_tables`. -/
structure DBState where
  users : List UserRow
  inventories : List InvRow
  ender_chests : List EnderRow
deriving DecidableEq

/-- Metadata of a live item (`item.item_meta` in the game API). -/
structure ItemMeta where
  display_name : String
  enchants : List (String × Int)
  lore : List String
  is_unbreakable : Bool
  damage : Int
deriving DecidableEq

/-- A live item stack: kind string, stack count, optional metadata, and the
optional auxiliary data tag. -/
structure Item where
  type : String
  amount : Int
  item_meta : Option ItemMeta
  data : Option Int
deriving DecidableEq

/-- The live player state read by the save operations: identifier, display
name, numbered inventory slots, the five fixed equipment slots, and the
numbered ender-chest slots. -/
structure Player where
  xuid : String
  name : String
  inventory : List (Option Item)
  helmet : Option Item
  chestplate : Option Item
  leggings : Option Item
  boots : Option Item
  item_in_off_hand : Option Item
  ender_chest : List (Option Item)
deriving DecidableEq

/-! ### Snapshot codec: encode path (save_inventory / save_enderchest) -/

/-- The slot-skipping guard `if not item or str(item.type) ==
"minecraft:air": continue`. -/
def keptItem : Option Item → Option Item
  | none => none
  | some it => if it.type = "minecraft:air" then none else some it

/-- `getattr(meta, "display_name", "")` with the `if meta` default. -/
def metaDisplayName : Option ItemMeta → String
  | some m => m.display_name
  | none => ""

/-- `getattr(meta, "enchants", {})` with the `if meta` default. -/
def metaEnchants : Option ItemMeta → List (String × Int)
  | some m => m.enchants
  | none => []

/-- `getattr(meta, "lore", [])` with the `if meta` default. -/
def metaLore : Option ItemMeta → List String
  | some m => m.lore
  | none => []

/-- `getattr(meta, "is_unbreakable", False)` with the `if meta` default. -/
def metaUnbreakable : Option ItemMeta → Bool
  | some m => m.is_unbreakable
  | none => false

/-- `getattr(meta, "damage", 0) if meta else 0`. -/
def metaDamage : Option ItemMeta → Int
  | some m => m.damage
  | none => 0

/-- One tuple of the `values` list built by `save_inventory` for a kept
item. -/
def encodeInvItem (xuid name slot_type : String) (slot : Int) (it : Item) : InvRow :=
  { xuid := xuid
    name := name
    slot_type := slot_type
    slot := some slot
    type := some it.type
    amount := some it.amount
    damage := some (metaDamage it.item_meta)
    display_name := some (metaDisplayName it.item_meta)
    enchants := some (dumpsEnchants (metaEnchants it.item_meta))
    lore := some (dumpsLore (metaLore it.item_meta))
    unbreakable := some (if metaUnbreakable it.item_meta then 1 else 0)
    data := it.data }

/-- The numbered-slot loop of `save_inventory`
(`for i in range(player.inventory.size)`), beginning at slot index `i`. -/
def invSlotValuesFrom (xuid name : String) (i : Int) : List (Option Item) → List InvRow
  | [] => []
  | oit :: rest =>
    (match keptItem oit with
     | some it => [encodeInvItem xuid name "slot" i it]
     | none => []) ++ invSlotValuesFrom xuid name (i + 1) rest

/-- The `armor_items` list of `save_inventory`: the five fixed equipment
slots in their fixed enumeration order. -/
def armorItems (p : Player) : List (String × Option Item) :=
  [("helmet", p.helmet), ("chestplate", p.chestplate), ("leggings", p.leggings),
    ("boots", p.boots), ("offhand", p.item_in_off_hand)]

/-- The equipment loop of `save_inventory`: skip empty slots, record slot
index 0 for every equipment row. -/
def armorValuesAux (xuid name : String) : List (String × Option Item) → List InvRow
  | [] => []
  | (st, oit) :: rest =>
    (match keptItem oit with
     | some it => [encodeInvItem xuid name st 0 it]
     | none => []) ++ armorValuesAux xuid name rest

/-- All rows `save_inventory` builds for a player (numbered slots first,
then equipment). -/
def invValues (p : Player) : List InvRow :=
  invSlotValuesFrom p.xuid p.name 0 p.inventory
    ++ armorValuesAux p.xuid p.name (armorItems p)

/-- `save_inventory`: delete every `inventories` row of the player's xuid,
then insert the freshly encoded rows, in one locked transaction. -/
def save_inventory (db : DBState) (p : Player) : DBState :=
  { db with inventories :=
      db.inventories.filter (fun r => r.xuid ≠ p.xuid) ++ invValues p }

/-- One tuple of the `values` list built by `save_enderchest`. -/
def encodeEnderItem (xuid name : String) (slot : Int) (it : Item) : EnderRow :=
  { xuid := xuid
    name := name
    slot := some slot
    type := some it.type
    amount := some it.amount
    damage := some (metaDamage it.item_meta)
    display_name := some (metaDisplayName it.item_meta)
    enchants := some (dumpsEnchants (metaEnchants it.item_meta))
    lore := some (dumpsLore (metaLore it.item_meta))
    unbreakable := some (if metaUnbreakable it.item_meta then 1 else 0)
    data := it.data }

/-- The slot loop of `save_enderchest`. -/
def enderValuesFrom (xuid name : String) (i : Int) : List (Option Item) → List EnderRow
  | [] => []
  | oit :: rest =>
    (match keptItem oit with
     | some it => [encodeEnderItem xuid name i it]
     | none => []) ++ enderValuesFrom xuid name (i + 1) rest

/-- All rows `save_enderchest` builds for a player. -/
def enderValues (p : Player) : List EnderRow :=
  enderValuesFrom p.xuid p.name 0 p.ender_chest

/-- `save_enderchest`: delete-then-insert for the `ender_chests` table. -/
def save_enderchest (db : DBState) (p : Player) : DBState :=
  { db with ender_chests :=
      db.ender_chests.filter (fun r => r.xuid ≠ p.xuid) ++ enderValues p }

/-! ### Snapshot codec: decode path (get_inventory / get_enderchest) -/

/-- Decoding of one JSON text column: NULL and the sentinel strings give
the default without parsing; otherwise `json.loads`, with the default
substituted when parsing fails. -/
def decodeJsonField (os : Option String) (dflt : Json) : Json :=
  match os with
  | none => dflt
  | some s =>
    if s = "" ∨ s = "null" ∨ s = "0" then dflt
    else
      match json_loads s with
      | some v => v
      | none => dflt

/-- Python's `x or default` on a nullable text column. -/
def pyOrStr (os : Option String) (dflt : String) : String :=
  match os with
  | none => dflt
  | some s => if s = "" then dflt else s

/-- The dictionary `get_inventory` appends for one row. -/
structure DecodedItem where
  xuid : String
  name : String
  slot_type : String
  slot : Int
  type : String
  amount : Int
  damage : Int
  display_name : String
  enchants : Json
  lore : Json
  unbreakable : Bool
  data : Option Int

/-- The dictionary `get_enderchest` appends for one row (no `slot_type`). -/
structure DecodedEnderItem where
  xuid : String
  name : String
  slot : Int
  type : String
  amount : Int
  damage : Int
  display_name : String
  enchants : Json
  lore : Json
  unbreakable : Bool
  data : Option Int

/-- Decoding of one `inventories` row, with the documented defaults for
NULL fields. -/
def decodeInvRow (r : InvRow) : DecodedItem :=
  { xuid := r.xuid
    name := r.name
    slot_type := r.slot_type
    slot := r.slot.getD 0
    type := pyOrStr r.type "minecraft:air"
    amount := r.amount.getD 1
    damage := r.damage.getD 0
    display_name := pyOrStr r.display_name ""
    enchants := decodeJsonField r.enchants (Json.obj [])
    lore := decodeJsonField r.lore (Json.arr [])
    unbreakable := match r.unbreakable with
      | none => false
      | some i => decide (i ≠ 0)
    data := r.data }

/-- Decoding of one `ender_chests` row. -/
def decodeEnderRow (r : EnderRow) : DecodedEnderItem :=
  { xuid := r.xuid
    name := r.name
    slot := r.slot.getD 0
    type := pyOrStr r.type "minecraft:air"
    amount := r.amount.getD 1
    damage := r.damage.getD 0
    display_name := pyOrStr r.display_name ""
    enchants := decodeJsonField r.enchants (Json.obj [])
    lore := decodeJsonField r.lore (Json.arr [])
    unbreakable := match r.unbreakable with
      | none => false
      | some i => decide (i ≠ 0)
    data := r.data }

/-- `get_inventory`: select the player's rows and decode each one
independently. -/
def get_inventory (db : DBState) (xuid : String) : List DecodedItem :=
  (db.inventories.filter (fun r => r.xuid = xuid)).map decodeInvRow

/-- `get_enderchest`: select the player's rows and decode each one
independently. -/
def get_enderchest (db : DBState) (xuid : String) : List DecodedEnderItem :=
  (db.ender_chests.filter (fun r => r.xuid = xuid)).map decodeEnderRow

/-! ### Identity index -/

/-- `save_user`: `INSERT OR REPLACE INTO users (xuid, name, last_join)`,
leaving `last_leave` at its column default 0. -/
def save_user (db : DBState) (xuid name : String) (join_time : Int) : DBState :=
  { db with users := db.users.filter (fun u => u.xuid ≠ xuid)
      ++ [{ xuid := xuid, name := name, last_join := join_time, last_leave := 0 }] }

/-- `update_user_leave_time`: `UPDATE users SET last_leave = ? WHERE
xuid = ?`. -/
def update_user_leave_time (db : DBState) (xuid : String) (leave_time : Int) : DBState :=
  { db with users := db.users.map (fun u =>
      if u.xuid = xuid then { u with last_leave := leave_time } else u) }

/-- Lowercasing as SQLite's `LOWER` (ASCII letters only). -/
def lowerChars (l : List Char) : List Char := l.map Char.toLower

/-- The WHERE clause of the name queries:
`LOWER(name) LIKE LOWER('%' || pattern || '%')`. -/
def nameMatches (pat stored : String) : Bool :=
  like (lowerChars ('%' :: pat.data ++ ['%'])) (lowerChars stored.data)

/-- `ORDER BY last_join DESC`. -/
def joinDescOrder (a b : UserRow) : Prop := b.last_join ≤ a.last_join

instance : DecidableRel joinDescOrder := fun a b => Int.decLe b.last_join a.last_join

instance : IsTotal UserRow joinDescOrder := ⟨fun a b => le_total b.last_join a.last_join⟩

instance : IsTrans UserRow joinDescOrder := ⟨fun _ _ _ h1 h2 => le_trans h2 h1⟩

/-- `search_users_by_name`: all matching users, most recent join first. -/
def search_users_by_name (db : DBState) (pat : String) : List UserRow :=
  List.insertionSort joinDescOrder (db.users.filter (fun u => nameMatches pat u.name))

/-- `get_user_by_name`: the same query with `LIMIT 1`. -/
def get_user_by_name (db : DBState) (pat : String) : Option UserRow :=
  (search_users_by_name db pat).head?

/-- Modelled from the spec: a stored name matches a pattern iff the
lowercase stored name contains the lowercase pattern as a substring. -/
def specNameMatches (pat stored : String) : Bool :=
  containsSub (lowerChars stored.data) (lowerChars pat.data)

/-! ### Round-trip support -/

/-- The record the round trip predicts for a kept live item: every stored
field comes straight back; the enchantment mapping and the lore lines come
back as the corresponding JSON values. -/
def liveRecord (xuid name slot_type : String) (slot : Int) (it : Item) : DecodedItem :=
  { xuid := xuid
    name := name
    slot_type := slot_type
    slot := slot
    type := it.type
    amount := it.amount
    damage := metaDamage it.item_meta
    display_name := metaDisplayName it.item_meta
    enchants := jsonOfEnch (metaEnchants it.item_meta)
    lore := jsonOfLore (metaLore it.item_meta)
    unbreakable := metaUnbreakable it.item_meta
    data := it.data }

/-- Expected decoded records for the numbered slots. -/
def liveSlotRecordsFrom (xuid name : String) (i : Int) :
    List (Option Item) → List DecodedItem
  | [] => []
  | oit :: rest =>
    (match keptItem oit with
     | some it => [liveRecord xuid name "slot" i it]
     | none => []) ++ liveSlotRecordsFrom xuid name (i + 1) rest

/-- Expected decoded records for the equipment slots. -/
def liveArmorRecords (xuid name : String) :
    List (String × Option Item) → List DecodedItem
  | [] => []
  | (st, oit) :: rest =>
    (match keptItem oit with
     | some it => [liveRecord xuid name st 0 it]
     | none => []) ++ liveArmorRecords xuid name rest

/-- All records the round trip predicts for a player. -/
def liveRecords (p : Player) : List DecodedItem :=
  liveSlotRecordsFrom p.xuid p.name 0 p.inventory
    ++ liveArmorRecords p.xuid p.name (armorItems p)

theorem keptItem_eq_some {oit : Option Item} {it : Item} (h : keptItem oit = some it) :
    oit = some it ∧ it.type ≠ "minecraft:air" := by
  cases oit with
  | none => simp [keptItem] at h
  | some it2 =>
    by_cases hty : it2.type = "minecraft:air"
    · simp [keptItem, hty] at h
    · simp [keptItem, hty] at h
      subst h
      exact ⟨rfl, hty⟩

/-- Decoding inverts encoding on any kept item whose kind string is
nonempty. -/
theorem decode_encodeInvItem (xuid name slot_type : String) (slot : Int) (it : Item)
    (hty : it.type ≠ "") :
    decodeInvRow (encodeInvItem xuid name slot_type slot it)
      = liveRecord xuid name slot_type slot it := by
  obtain ⟨h1, h2, h3⟩ := dumpsEnchants_not_sentinel (metaEnchants it.item_meta)
  obtain ⟨g1, g2, g3⟩ := dumpsLore_not_sentinel (metaLore it.item_meta)
  cases hmu : metaUnbreakable it.item_meta <;>
    simp [decodeInvRow, encodeInvItem, liveRecord, decodeJsonField, pyOrStr,
      h1, h2, h3, g1, g2, g3, json_loads_dumpsEnchants, json_loads_dumpsLore, hty, hmu] <;>
    exact fun h => h.symm

theorem invSlotValuesFrom_xuid (xuid name : String) :
    ∀ (l : List (Option Item)) (i : Int) (r : InvRow),
      r ∈ invSlotValuesFrom xuid name i l → r.xuid = xuid := by
  intro l
  induction l with
  | nil => intro i r hr; simp [invSlotValuesFrom] at hr
  | cons oit rest ih =>
    intro i r hr
    unfold invSlotValuesFrom at hr
    rw [List.mem_append] at hr
    rcases hr with hr | hr
    · cases hk : keptItem oit with
      | none => rw [hk] at hr; simp at hr
      | some it =>
        rw [hk] at hr
        simp at hr
        subst hr
        rfl
    · exact ih (i + 1) r hr

theorem armorValuesAux_xuid (xuid name : String) :
    ∀ (l : List (String × Option Item)) (r : InvRow),
      r ∈ armorValuesAux xuid name l → r.xuid = xuid := by
  intro l
  induction l with
  | nil => intro r hr; simp [armorValuesAux] at hr
  | cons sp rest ih =>
    intro r hr
    obtain ⟨st, oit⟩ := sp
    unfold armorValuesAux at hr
    rw [List.mem_append] at hr
    rcases hr with hr | hr
    · cases hk : keptItem oit with
      | none => rw [hk] at hr; simp at hr
      | some it =>
        rw [hk] at hr
        simp at hr
        subst hr
        rfl
    · exact ih r hr

theorem invValues_xuid (p : Player) : ∀ r ∈ invValues p, r.xuid = p.xuid := by
  intro r hr
  unfold invValues at hr
  rw [List.mem_append] at hr
  rcases hr with hr | hr
  · exact invSlotValuesFrom_xuid p.xuid p.name p.inventory 0 r hr
  · exact armorValuesAux_xuid p.xuid p.name (armorItems p) r hr

theorem enderValuesFrom_xuid (xuid name : String) :
    ∀ (l : List (Option Item)) (i : Int) (r : EnderRow),
      r ∈ enderValuesFrom xuid name i l → r.xuid = xuid := by
  intro l
  induction l with
  | nil => intro i r hr; simp [enderValuesFrom] at hr
  | cons oit rest ih =>
    intro i r hr
    unfold enderValuesFrom at hr
    rw [List.mem_append] at hr
    rcases hr with hr | hr
    · cases hk : keptItem oit with
      | none => rw [hk] at hr; simp at hr
      | some it =>
        rw [hk] at hr
        simp at hr
        subst hr
        rfl
    · exact ih (i + 1) r hr

theorem enderValues_xuid (p : Player) : ∀ r ∈ enderValues p, r.xuid = p.xuid :=
  fun r hr => enderValuesFrom_xuid p.xuid p.name p.ender_chest 0 r hr

/-- After a save, the player's rows in the `inventories` table are exactly
the freshly encoded values. -/
theorem filter_save_inventory (db : DBState) (p : Player) :
    (save_inventory db p).inventories.filter (fun r => r.xuid = p.xuid) = invValues p := by
  unfold save_inventory
  rw [List.filter_append]
  have h1 : (db.inventories.filter (fun r => r.xuid ≠ p.xuid)).filter
      (fun r => r.xuid = p.xuid) = [] := by
    rw [List.filter_eq_nil_iff]
    intro a ha
    rw [List.mem_filter] at ha
    simpa using ha.2
  have h2 : (invValues p).filter (fun r => r.xuid = p.xuid) = invValues p := by
    rw [List.filter_eq_self]
    intro a ha
    simpa using invValues_xuid p a ha
  rw [h1, h2, List.nil_append]

/-- After a save, the player's rows in the `ender_chests` table are exactly
the freshly encoded values. -/
theorem filter_save_enderchest (db : DBState) (p : Player) :
    (save_enderchest db p).ender_chests.filter (fun r => r.xuid = p.xuid) = enderValues p := by
  unfold save_enderchest
  rw [List.filter_append]
  have h1 : (db.ender_chests.filter (fun r => r.xuid ≠ p.xuid)).filter
      (fun r => r.xuid = p.xuid) = [] := by
    rw [List.filter_eq_nil_iff]
    intro a ha
    rw [List.mem_filter] at ha
    simpa using ha.2
  have h2 : (enderValues p).filter (fun r => r.xuid = p.xuid) = enderValues p := by
    rw [List.filter_eq_self]
    intro a ha
    simpa using enderValues_xuid p a ha
  rw [h1, h2, List.nil_append]

theorem map_decode_invSlotValuesFrom (xuid name : String) :
    ∀ (l : List (Option Item)) (i : Int),
      (∀ oit ∈ l, ∀ it, oit = some it → it.type ≠ "") →
      (invSlotValuesFrom xuid name i l).map decodeInvRow
        = liveSlotRecordsFrom xuid name i l := by
  intro l
  induction l with
  | nil => intro i _; rfl
  | cons oit rest ih =>
    intro i hl
    unfold invSlotValuesFrom liveSlotRecordsFrom
    rw [List.map_append]
    rw [ih (i + 1) (fun o ho it hit => hl o (by simp [ho]) it hit)]
    cases hk : keptItem oit with
    | none => rfl
    | some it =>
      obtain ⟨ho, -⟩ := keptItem_eq_some hk
      have hty : it.type ≠ "" := hl oit (by simp) it ho
      simp [decode_encodeInvItem xuid name "slot" i it hty]

theorem map_decode_armorValuesAux (xuid name : String) :
    ∀ (l : List (String × Option Item)),
      (∀ sp ∈ l, ∀ it, sp.2 = some it → it.type ≠ "") →
      (armorValuesAux xuid name l).map decodeInvRow = liveArmorRecords xuid name l := by
  intro l
  induction l with
  | nil => intro _; rfl
  | cons sp rest ih =>
    intro hl
    obtain ⟨st, oit⟩ := sp
    unfold armorValuesAux liveArmorRecords
    rw [List.map_append]
    rw [ih (fun q hq it hit => hl q (by simp [hq]) it hit)]
    cases hk : keptItem oit with
    | none => rfl
    | some it =>
      obtain ⟨ho, -⟩ := keptItem_eq_some hk
      have hty : it.type ≠ "" := hl (st, oit) (by simp) it ho
      simp [decode_encodeInvItem xuid name st 0 it hty]

theorem save_save (db : DBState) (p : Player) :
    save_inventory (save_inventory db p) p = save_inventory db p := by
  have hff : (db.inventories.filter (fun r => r.xuid ≠ p.xuid)).filter
      (fun r => r.xuid ≠ p.xuid) = db.inventories.filter (fun r => r.xuid ≠ p.xuid) := by
    rw [List.filter_eq_self]
    intro a ha
    exact (List.mem_filter.mp ha).2
  have hfv : (invValues p).filter (fun r => r.xuid ≠ p.xuid) = [] := by
    rw [List.filter_eq_nil_iff]
    intro a ha
    simpa using invValues_xuid p a ha
  simp only [save_inventory, List.filter_append, hff, hfv, List.append_nil]

/-- An encoder-skipped slot: no item, or the air sentinel kind. -/
def emptyOrAir : Option Item → Prop
  | none => True
  | some it => it.type = "minecraft:air"

theorem keptItem_of_emptyOrAir {oit : Option Item} (h : emptyOrAir oit) :
    keptItem oit = none := by
  cases oit with
  | none => rfl
  | some it =>
    have h2 : it.type = "minecraft:air" := h
    simp [keptItem, h2]

theorem invSlotValuesFrom_empty (xuid name : String) :
    ∀ (l : List (Option Item)) (i : Int), (∀ oit ∈ l, emptyOrAir oit) →
      invSlotValuesFrom xuid name i l = [] := by
  intro l
  induction l with
  | nil => intro i _; rfl
  | cons oit rest ih =>
    intro i hl
    unfold invSlotValuesFrom
    rw [keptItem_of_emptyOrAir (hl oit (by simp))]
    rw [ih (i + 1) (fun o ho => hl o (by simp [ho]))]
    rfl

theorem enderValuesFrom_empty (xuid name : String) :
    ∀ (l : List (Option Item)) (i : Int), (∀ oit ∈ l, emptyOrAir oit) →
      enderValuesFrom xuid name i l = [] := by
  intro l
  induction l with
  | nil => intro i _; rfl
  | cons oit rest ih =>
    intro i hl
    unfold enderValuesFrom
    rw [keptItem_of_emptyOrAir (hl oit (by simp))]
    rw [ih (i + 1) (fun o ho => hl o (by simp [ho]))]
    rfl

theorem invSlotValuesFrom_type (xuid name : String) :
    ∀ (l : List (Option Item)) (i : Int) (r : InvRow),
      r ∈ invSlotValuesFrom xuid name i l → r.type ≠ some "minecraft:air" := by
  intro l
  induction l with
  | nil => intro i r hr; simp [invSlotValuesFrom] at hr
  | cons oit rest ih =>
    intro i r hr
    unfold invSlotValuesFrom at hr
    rw [List.mem_append] at hr
    rcases hr with hr | hr
    · cases hk : keptItem oit with
      | none => rw [hk] at hr; simp at hr
      | some it =>
        rw [hk] at hr
        simp at hr
        subst hr
        obtain ⟨-, hty⟩ := keptItem_eq_some hk
        simpa [encodeInvItem] using hty
    · exact ih (i + 1) r hr

theorem armorValuesAux_type (xuid name : String) :
    ∀ (l : List (String × Option Item)) (r : InvRow),
      r ∈ armorValuesAux xuid name l → r.type ≠ some "minecraft:air" := by
  intro l
  induction l with
  | nil => intro r hr; simp [armorValuesAux] at hr
  | cons sp rest ih =>
    intro r hr
    obtain ⟨st, oit⟩ := sp
    unfold armorValuesAux at hr
    rw [List.mem_append] at hr
    rcases hr with hr | hr
    · cases hk : keptItem oit with
      | none => rw [hk] at hr; simp at hr
      | some it =>
        rw [hk] at hr
        simp at hr
        subst hr
        obtain ⟨-, hty⟩ := keptItem_eq_some hk
        simpa [encodeInvItem] using hty
    · exact ih r hr

theorem enderValuesFrom_type (xuid name : String) :
    ∀ (l : List (Option Item)) (i : Int) (r : EnderRow),
      r ∈ enderValuesFrom xuid name i l → r.type ≠ some "minecraft:air" := by
  intro l
  induction l with
  | nil => intro i r hr; simp [enderValuesFrom] at hr
  | cons oit rest ih =>
    intro i r hr
    unfold enderValuesFrom at hr
    rw [List.mem_append] at hr
    rcases hr with hr | hr
    · cases hk : keptItem oit with
      | none => rw [hk] at hr; simp at hr
      | some it =>
        rw [hk] at hr
        simp at hr
        subst hr
        obtain ⟨-, hty⟩ := keptItem_eq_some hk
        simpa [encodeEnderItem] using hty
    · exact ih (i + 1) r hr

theorem armorValuesAux_slot (xuid name : String) :
    ∀ (l : List (String × Option Item)) (r : InvRow),
      r ∈ armorValuesAux xuid name l → r.slot = some 0 := by
  intro l
  induction l with
  | nil => intro r hr; simp [armorValuesAux] at hr
  | cons sp rest ih =>
    intro r hr
    obtain ⟨st, oit⟩ := sp
    unfold armorValuesAux at hr
    rw [List.mem_append] at hr
    rcases hr with hr | hr
    · cases hk : keptItem oit with
      | none => rw [hk] at hr; simp at hr
      | some it =>
        rw [hk] at hr
        simp at hr
        subst hr
        rfl
    · exact ih r hr

/-! ### Claim theorems -/

/-- C1: saving a player's non-empty slot records with `save_inventory` and
reading them back with `get_inventory` returns exactly the input records —
the same multiset whatever the storage row order — for any combination of
kind, count, damage, display name, enchantment mapping (including the
empty mapping), lore (including the empty sequence), unbreakable flag and
auxiliary data tag; in particular `data := none` returns as `none`, which
is distinct from `some 0`.  The only restriction is that occupied slots
carry a nonempty kind string: "" is not a valid namespaced item kind, and
the decoder's `row[4] or "minecraft:air"` default would rewrite it. -/
theorem c1_save_get_inventory_roundtrip (db : DBState) (p : Player)
    (h : ∀ oit ∈ p.inventory
        ++ [p.helmet, p.chestplate, p.leggings, p.boots, p.item_in_off_hand],
      ∀ it, oit = some it → it.type ≠ "") :
    get_inventory (save_inventory db p) p.xuid = liveRecords p := by
  unfold get_inventory
  rw [filter_save_inventory]
  unfold invValues liveRecords
  rw [List.map_append]
  rw [map_decode_invSlotValuesFrom p.xuid p.name p.inventory 0
    (fun o ho it hit => h o (by simp [ho]) it hit)]
  rw [map_decode_armorValuesAux p.xuid p.name (armorItems p)
    (by
      intro sp hsp it hit
      apply h sp.2 _ it hit
      have hm : sp.2 ∈ [p.helmet, p.chestplate, p.leggings, p.boots, p.item_in_off_hand] := by
        unfold armorItems at hsp
        simp at hsp
        rcases hsp with h1 | h1 | h1 | h1 | h1 <;> subst h1 <;> simp
      exact List.mem_append.mpr (Or.inr hm))]

/-- C2: a save stores exactly the rows encoded from the live state for
that identifier — all prior rows for the identifier are superseded, in
both the inventory table and the ender-chest table, whatever was stored
before. -/
theorem c2_save_replaces_all (dbI dbE : DBState) (p q : Player) :
    (save_inventory dbI p).inventories.filter (fun r => r.xuid = p.xuid) = invValues p
    ∧ (save_enderchest dbE q).ender_chests.filter (fun r => r.xuid = q.xuid) = enderValues q :=
  ⟨filter_save_inventory dbI p, filter_save_enderchest dbE q⟩

/-- C6: calling save_inventory twice in a row with the same live state
produces the same decoded result as calling it once (the stored state is
in fact identical). -/
theorem c6_save_inventory_idempotent (db : DBState) (p : Player) :
    get_inventory (save_inventory (save_inventory db p) p) p.xuid
      = get_inventory (save_inventory db p) p.xuid := by
  rw [save_save]

/-- C7: a live inventory or ender chest holding only empty or air slots
saves to zero stored rows and decodes back to the empty list; and after
any save, no stored row of that player carries the air kind. -/
theorem c7_skip_empty (db db2 db3 : DBState) (p q : Player)
    (hinv : ∀ oit ∈ p.inventory, emptyOrAir oit)
    (harm : ∀ oit ∈ [p.helmet, p.chestplate, p.leggings, p.boots, p.item_in_off_hand],
      emptyOrAir oit)
    (hech : ∀ oit ∈ p.ender_chest, emptyOrAir oit) :
    ((save_inventory db p).inventories.filter (fun r => r.xuid = p.xuid) = []
      ∧ get_inventory (save_inventory db p) p.xuid = [])
    ∧ ((save_enderchest db2 p).ender_chests.filter (fun r => r.xuid = p.xuid) = []
      ∧ get_enderchest (save_enderchest db2 p) p.xuid = [])
    ∧ (∀ r ∈ (save_inventory db3 q).inventories, r.xuid = q.xuid →
        r.type ≠ some "minecraft:air")
    ∧ (∀ r ∈ (save_enderchest db3 q).ender_chests, r.xuid = q.xuid →
        r.type ≠ some "minecraft:air") := by
  have k1 := keptItem_of_emptyOrAir (harm p.helmet (by simp))
  have k2 := keptItem_of_emptyOrAir (harm p.chestplate (by simp))
  have k3 := keptItem_of_emptyOrAir (harm p.leggings (by simp))
  have k4 := keptItem_of_emptyOrAir (harm p.boots (by simp))
  have k5 := keptItem_of_emptyOrAir (harm p.item_in_off_hand (by simp))
  have hvals : invValues p = [] := by
    unfold invValues
    rw [invSlotValuesFrom_empty p.xuid p.name p.inventory 0 hinv]
    simp [armorItems, armorValuesAux, k1, k2, k3, k4, k5]
  have hevals : enderValues p = [] :=
    enderValuesFrom_empty p.xuid p.name p.ender_chest 0 hech
  refine ⟨⟨?_, ?_⟩, ⟨?_, ?_⟩, ?_, ?_⟩
  · rw [filter_save_inventory, hvals]
  · unfold get_inventory
    rw [filter_save_inventory, hvals]
    rfl
  · rw [filter_save_enderchest, hevals]
  · unfold get_enderchest
    rw [filter_save_enderchest, hevals]
    rfl
  · intro r hr hx
    unfold save_inventory at hr
    rw [List.mem_append] at hr
    rcases hr with hr | hr
    · exact absurd hx (by simpa using (List.mem_filter.mp hr).2)
    · unfold invValues at hr
      rw [List.mem_append] at hr
      rcases hr with hr | hr
      · exact invSlotValuesFrom_type q.xuid q.name q.inventory 0 r hr
      · exact armorValuesAux_type q.xuid q.name (armorItems q) r hr
  · intro r hr hx
    unfold save_enderchest at hr
    rw [List.mem_append] at hr
    rcases hr with hr | hr
    · exact absurd hx (by simpa using (List.mem_filter.mp hr).2)
    · exact enderValuesFrom_type q.xuid q.name q.ender_chest 0 r hr

/-- C8: a player whose only non-empty item is a helmet saves to exactly
one row, with container kind "helmet" and the equipment sentinel slot
index 0; the equipment loop visits helmet, chestplate, leggings, boots,
offhand in that fixed order, skips empty ones, and every equipment row it
produces records slot index 0. -/
theorem c8_helmet_only (db : DBState) (p : Player) (it : Item)
    (hinv : ∀ oit ∈ p.inventory, emptyOrAir oit)
    (hh : p.helmet = some it) (hha : it.type ≠ "minecraft:air")
    (hc : emptyOrAir p.chestplate) (hl : emptyOrAir p.leggings)
    (hb : emptyOrAir p.boots) (ho : emptyOrAir p.item_in_off_hand) :
    (save_inventory db p).inventories.filter (fun r => r.xuid = p.xuid)
        = [encodeInvItem p.xuid p.name "helmet" 0 it]
    ∧ (encodeInvItem p.xuid p.name "helmet" 0 it).slot_type = "helmet"
    ∧ (encodeInvItem p.xuid p.name "helmet" 0 it).slot = some 0
    ∧ (∀ q : Player, ∀ r ∈ armorValuesAux q.xuid q.name (armorItems q), r.slot = some 0) := by
  refine ⟨?_, rfl, rfl, fun q r hr => armorValuesAux_slot q.xuid q.name (armorItems q) r hr⟩
  rw [filter_save_inventory]
  unfold invValues
  rw [invSlotValuesFrom_empty p.xuid p.name p.inventory 0 hinv]
  rw [List.nil_append]
  have kh : keptItem p.helmet = some it := by rw [hh]; simp [keptItem, hha]
  simp [armorItems, armorValuesAux, kh, keptItem_of_emptyOrAir hc,
    keptItem_of_emptyOrAir hl, keptItem_of_emptyOrAir hb, keptItem_of_emptyOrAir ho]

theorem decodeJsonField_sentinel (s : String) (dflt : Json)
    (h : s = "null" ∨ s = "0" ∨ s = "") :
    decodeJsonField (some s) dflt = dflt := by
  unfold decodeJsonField
  rcases h with h | h | h <;> subst h <;> simp

/-- C3: the decoder processes every stored row of an identifier
independently and never raises: a row whose enchantment text fails to
parse decodes with the empty enchantment mapping substituted (a corrupt
lore text likewise yields the empty sequence), that row and every other
row of the identifier still appear in the result, no row is dropped, and
NULL numeric columns decode to the documented defaults: slot 0, count 1,
damage 0, unbreakable false. -/
theorem c3_corrupt_row_resilience (db : DBState) (x : String) (r : InvRow)
    (hr : r ∈ db.inventories) (hx : r.xuid = x)
    (s : String) (hs : r.enchants = some s) (hbad : json_loads s = none) :
    (decodeInvRow r).enchants = Json.obj []
    ∧ decodeInvRow r ∈ get_inventory db x
    ∧ (∀ q ∈ db.inventories, q.xuid = x → decodeInvRow q ∈ get_inventory db x)
    ∧ (get_inventory db x).length
        = (db.inventories.filter (fun q => q.xuid = x)).length
    ∧ (∀ q : InvRow, ∀ t, q.lore = some t → json_loads t = none →
        (decodeInvRow q).lore = Json.arr [])
    ∧ (∀ q : InvRow, q.slot = none → (decodeInvRow q).slot = 0)
    ∧ (∀ q : InvRow, q.amount = none → (decodeInvRow q).amount = 1)
    ∧ (∀ q : InvRow, q.damage = none → (decodeInvRow q).damage = 0)
    ∧ (∀ q : InvRow, q.unbreakable = none → (decodeInvRow q).unbreakable = false) := by
  have hmem : ∀ q ∈ db.inventories, q.xuid = x → decodeInvRow q ∈ get_inventory db x := by
    intro q hq hqx
    unfold get_inventory
    exact List.mem_map_of_mem decodeInvRow (List.mem_filter.mpr ⟨hq, by simpa using hqx⟩)
  refine ⟨?_, hmem r hr hx, hmem, ?_, ?_, ?_, ?_, ?_, ?_⟩
  · show decodeJsonField r.enchants (Json.obj []) = Json.obj []
    rw [hs]
    by_cases hsent : s = "" ∨ s = "null" ∨ s = "0"
    · simp [decodeJsonField, hsent]
    · simp [decodeJsonField, hsent, hbad]
  · unfold get_inventory
    rw [List.length_map]
  · intro q t ht hbadt
    show decodeJsonField q.lore (Json.arr []) = Json.arr []
    rw [ht]
    by_cases hsent : t = "" ∨ t = "null" ∨ t = "0"
    · simp [decodeJsonField, hsent]
    · simp [decodeJsonField, hsent, hbadt]
  · intro q hq
    show q.slot.getD 0 = 0
    rw [hq]
    rfl
  · intro q hq
    show q.amount.getD 1 = 1
    rw [hq]
    rfl
  · intro q hq
    show q.damage.getD 0 = 0
    rw [hq]
    rfl
  · intro q hq
    show (match q.unbreakable with
      | none => false
      | some i => decide (i ≠ 0)) = false
    rw [hq]

/-- C10: a NULL enchantment or lore text column, and the exact sentinel
strings "null", "0" and "", decode to the empty mapping / empty sequence
in both `get_inventory`'s and `get_enderchest`'s row decoders without
being parsed as JSON; in particular a stored lore text "0" never surfaces
as the number 0. -/
theorem c10_sentinel_text_fields (r : InvRow) (e : EnderRow) :
    (∀ s, r.enchants = some s → (s = "null" ∨ s = "0" ∨ s = "") →
      (decodeInvRow r).enchants = Json.obj [])
    ∧ (r.enchants = none → (decodeInvRow r).enchants = Json.obj [])
    ∧ (∀ s, r.lore = some s → (s = "null" ∨ s = "0" ∨ s = "") →
      (decodeInvRow r).lore = Json.arr [])
    ∧ (r.lore = none → (decodeInvRow r).lore = Json.arr [])
    ∧ (∀ s, e.enchants = some s → (s = "null" ∨ s = "0" ∨ s = "") →
      (decodeEnderRow e).enchants = Json.obj [])
    ∧ (e.enchants = none → (decodeEnderRow e).enchants = Json.obj [])
    ∧ (∀ s, e.lore = some s → (s = "null" ∨ s = "0" ∨ s = "") →
      (decodeEnderRow e).lore = Json.arr [])
    ∧ (e.lore = none → (decodeEnderRow e).lore = Json.arr [])
    ∧ (∀ s, r.lore = some s → (s = "null" ∨ s = "0" ∨ s = "") →
      (decodeInvRow r).lore ≠ Json.num 0) := by
  refine ⟨?_, ?_, ?_, ?_, ?_, ?_, ?_, ?_, ?_⟩
  · intro s hsome hsent
    show decodeJsonField r.enchants (Json.obj []) = Json.obj []
    rw [hsome, decodeJsonField_sentinel s _ hsent]
  · intro hnone
    show decodeJsonField r.enchants (Json.obj []) = Json.obj []
    rw [hnone]
    rfl
  · intro s hsome hsent
    show decodeJsonField r.lore (Json.arr []) = Json.arr []
    rw [hsome, decodeJsonField_sentinel s _ hsent]
  · intro hnone
    show decodeJsonField r.lore (Json.arr []) = Json.arr []
    rw [hnone]
    rfl
  · intro s hsome hsent
    show decodeJsonField e.enchants (Json.obj []) = Json.obj []
    rw [hsome, decodeJsonField_sentinel s _ hsent]
  · intro hnone
    show decodeJsonField e.enchants (Json.obj []) = Json.obj []
    rw [hnone]
    rfl
  · intro s hsome hsent
    show decodeJsonField e.lore (Json.arr []) = Json.arr []
    rw [hsome, decodeJsonField_sentinel s _ hsent]
  · intro hnone
    show decodeJsonField e.lore (Json.arr []) = Json.arr []
    rw [hnone]
    rfl
  · intro s hsome hsent
    have h : (decodeInvRow r).lore = Json.arr [] := by
      show decodeJsonField r.lore (Json.arr []) = Json.arr []
      rw [hsome, decodeJsonField_sentinel s _ hsent]
    rw [h]
    intro hcontra
    cases hcontra

/-- C5: save_user inserts or fully replaces the users row keyed by the
identifier, setting name and join timestamp; because the replace works at
row level, the stored leave timestamp comes back as the column default 0,
even when a leave time had been recorded before; rows of other
identifiers and the other tables are untouched. -/
theorem c5_save_user_upsert (db : DBState) (x n : String) (t : Int) :
    (save_user db x n t).users.filter (fun u => u.xuid = x)
        = [{ xuid := x, name := n, last_join := t, last_leave := 0 }]
    ∧ (∀ u ∈ (save_user db x n t).users, u.xuid ≠ x → u ∈ db.users)
    ∧ (∀ u ∈ db.users, u.xuid ≠ x → u ∈ (save_user db x n t).users)
    ∧ (save_user db x n t).inventories = db.inventories
    ∧ (save_user db x n t).ender_chests = db.ender_chests := by
  refine ⟨?_, ?_, ?_, rfl, rfl⟩
  · unfold save_user
    rw [List.filter_append]
    have h1 : (db.users.filter (fun u => u.xuid ≠ x)).filter (fun u => u.xuid = x) = [] := by
      rw [List.filter_eq_nil_iff]
      intro a ha
      simpa using (List.mem_filter.mp ha).2
    rw [h1, List.nil_append]
    simp
  · intro u hu hux
    unfold save_user at hu
    rw [List.mem_append] at hu
    rcases hu with hu | hu
    · exact (List.mem_filter.mp hu).1
    · simp at hu
      subst hu
      simp at hux
  · intro u hu hux
    unfold save_user
    rw [List.mem_append]
    exact Or.inl (List.mem_filter.mpr ⟨hu, by simpa using hux⟩)

/-- C9: update_user_leave_time updates the leave timestamp of exactly the
rows whose identifier matches and nothing else: with an unknown identifier
the whole state is unchanged (no row created, and in this embedding no
error can be raised), the row count never changes, matching rows get the
new leave time, non-matching rows and the other tables are untouched. -/
theorem c9_record_leave_isolation (db : DBState) (x : String) (t : Int) :
    ((∀ u ∈ db.users, u.xuid ≠ x) → update_user_leave_time db x t = db)
    ∧ (update_user_leave_time db x t).users.length = db.users.length
    ∧ (∀ u ∈ db.users, u.xuid = x →
        { u with last_leave := t } ∈ (update_user_leave_time db x t).users)
    ∧ (∀ u ∈ db.users, u.xuid ≠ x → u ∈ (update_user_leave_time db x t).users)
    ∧ (update_user_leave_time db x t).inventories = db.inventories
    ∧ (update_user_leave_time db x t).ender_chests = db.ender_chests := by
  refine ⟨?_, ?_, ?_, ?_, rfl, rfl⟩
  · intro hno
    unfold update_user_leave_time
    have hmap : db.users.map (fun u =>
        if u.xuid = x then { u with last_leave := t } else u) = db.users := by
      have h1 : db.users.map (fun u =>
          if u.xuid = x then { u with last_leave := t } else u)
          = db.users.map (fun u => u) :=
        List.map_congr_left (fun u hu => by rw [if_neg (hno u hu)])
      rw [h1, List.map_id']
    rw [hmap]
  · unfold update_user_leave_time
    rw [List.length_map]
  · intro u hu hux
    unfold update_user_leave_time
    have : { u with last_leave := t }
        = (fun v => if v.xuid = x then { v with last_leave := t } else v) u := by
      simp [hux]
    rw [this]
    exact List.mem_map_of_mem _ hu
  · intro u hu hux
    unfold update_user_leave_time
    have : u = (fun v => if v.xuid = x then { v with last_leave := t } else v) u := by
      simp [hux]
    rw [this]
    exact List.mem_map_of_mem _ hu

theorem nameMatches_eq_spec (pat : String) (hp : ∀ c ∈ pat.data, c ≠ '%' ∧ c ≠ '_')
    (stored : String) : nameMatches pat stored = specNameMatches pat stored := by
  unfold nameMatches specNameMatches
  have hpl : Char.toLower '%' = '%' := rfl
  have hl : lowerChars ('%' :: pat.data ++ ['%'])
      = '%' :: (lowerChars pat.data ++ ['%']) := by
    simp [lowerChars, hpl]
  rw [hl]
  exact like_eq_containsSub (lowerChars pat.data) (lowerChars stored.data)
    (by
      intro c hc
      simp only [lowerChars, List.mem_map] at hc
      obtain ⟨c0, hc0, rfl⟩ := hc
      exact ⟨toLower_ne_percent (hp c0 hc0).1, toLower_ne_underscore (hp c0 hc0).2⟩)

/-- The user row and store of the C4 counterexample. -/
def c4User : UserRow := { xuid := "u1", name := "Bob", last_join := 5, last_leave := 0 }

/-- A store holding only the user "Bob". -/
def c4DB : DBState := { users := [c4User], inventories := [], ender_chests := [] }

/-- C4 counterexample: the queries build `LIKE '%' || pattern || '%'`, in
which an underscore is a one-character wildcard.  With the single stored
name "Bob", searching for the pattern "_" returns Bob (and findBestMatch
returns Bob), although the lowercase "bob" does not contain "_" as a
substring — so "matches iff the lowercase stored name contains the
lowercase pattern as a substring" does not hold for every pattern. -/
theorem c4_counterexample :
    search_users_by_name c4DB "_" = [c4User]
    ∧ get_user_by_name c4DB "_" = some c4User
    ∧ specNameMatches "_" "Bob" = false := by
  refine ⟨by decide, by decide, by decide⟩

/-- C4 amended: for name patterns containing no LIKE metacharacter
(no percent, no underscore), a stored name matches iff the lowercase
stored name contains the lowercase pattern as a substring; searchAll
returns exactly the matching users — a permutation of the matching rows —
ordered by most-recent join first, and the empty list when nothing
matches; findBestMatch is its first entry: a matching user whose join
time is maximal among all matches, and none exactly when no name
matches. -/
theorem c4_name_matching_amended (db : DBState) (pat : String)
    (hp : ∀ c ∈ pat.data, c ≠ '%' ∧ c ≠ '_') :
    (∀ u : UserRow, nameMatches pat u.name = specNameMatches pat u.name)
    ∧ (search_users_by_name db pat).Perm
        (db.users.filter (fun u => specNameMatches pat u.name))
    ∧ List.Sorted joinDescOrder (search_users_by_name db pat)
    ∧ get_user_by_name db pat = (search_users_by_name db pat).head?
    ∧ (∀ u, get_user_by_name db pat = some u →
        specNameMatches pat u.name = true
        ∧ ∀ v ∈ db.users, specNameMatches pat v.name = true →
            v.last_join ≤ u.last_join)
    ∧ (get_user_by_name db pat = none ↔
        ∀ v ∈ db.users, specNameMatches pat v.name = false)
    ∧ ((∀ v ∈ db.users, specNameMatches pat v.name = false) →
        search_users_by_name db pat = []) := by
  have hfil : db.users.filter (fun u => nameMatches pat u.name)
      = db.users.filter (fun u => specNameMatches pat u.name) :=
    List.filter_congr (fun u _ => by rw [nameMatches_eq_spec pat hp u.name])
  have hperm : (search_users_by_name db pat).Perm
      (db.users.filter (fun u => specNameMatches pat u.name)) := by
    unfold search_users_by_name
    rw [hfil]
    exact List.perm_insertionSort joinDescOrder _
  have hsort : List.Sorted joinDescOrder (search_users_by_name db pat) :=
    List.sorted_insertionSort joinDescOrder _
  have hempty : (∀ v ∈ db.users, specNameMatches pat v.name = false) →
      search_users_by_name db pat = [] := by
    intro hall
    have hnil : db.users.filter (fun u => specNameMatches pat u.name) = [] := by
      rw [List.filter_eq_nil_iff]
      intro v hv
      simp [hall v hv]
    rw [← List.perm_nil]
    rw [hnil] at hperm
    exact hperm
  refine ⟨fun u => nameMatches_eq_spec pat hp u.name, hperm, hsort, rfl, ?_, ?_, hempty⟩
  · intro u hu
    unfold get_user_by_name at hu
    cases hL : search_users_by_name db pat with
    | nil => rw [hL] at hu; cases hu
    | cons w tail =>
      rw [hL] at hu
      have hwu : w = u := by simpa using hu
      subst hwu
      constructor
      · have hwmem : w ∈ db.users.filter (fun u => specNameMatches pat u.name) :=
          hperm.mem_iff.mp (by rw [hL]; simp)
        simpa using (List.mem_filter.mp hwmem).2
      · intro v hv hvm
        have hvL : v ∈ search_users_by_name db pat :=
          hperm.mem_iff.mpr (List.mem_filter.mpr ⟨hv, by simpa using hvm⟩)
        rw [hL] at hvL
        rcases List.mem_cons.mp hvL with hvw | hvt
        · subst hvw; exact le_refl _
        · have hsc : List.Sorted joinDescOrder (w :: tail) := by rw [hL] at hsort; exact hsort
          exact List.rel_of_sorted_cons hsc v hvt
  · constructor
    · intro hnone v hv
      unfold get_user_by_name at hnone
      rw [List.head?_eq_none_iff] at hnone
      by_contra hvm
      have hvL : v ∈ search_users_by_name db pat :=
        hperm.mem_iff.mpr (List.mem_filter.mpr ⟨hv, by simpa using hvm⟩)
      rw [hnone] at hvL
      cases hvL
    · intro hall
      unfold get_user_by_name
      rw [List.head?_eq_none_iff]
      have hnil : db.users.filter (fun u => specNameMatches pat u.name) = [] := by
        rw [List.filter_eq_nil_iff]
        intro v hv
        simp [hall v hv]
      rcases hL : search_users_by_name db pat with _ | ⟨w, tail⟩
      · rfl
      · have hwmem : w ∈ db.users.filter (fun u => specNameMatches pat u.name) :=
          hperm.mem_iff.mp (by rw [hL]; simp)
        rw [hnil] at hwmem
        cases hwmem

/-! ### Concrete data for the witnesses -/

/-- Item metadata used by the witnesses. -/
def wMeta : ItemMeta :=
  { display_name := "Excalibur", enchants := [("sharpness", 3), ("mending", 1)],
    lore := ["first line", "second"], is_unbreakable := true, damage := 7 }

/-- An enchanted item with a null auxiliary tag. -/
def wSword : Item :=
  { type := "minecraft:diamond_sword", amount := 1, item_meta := some wMeta, data := none }

/-- A plain item with auxiliary tag 0 and no metadata. -/
def wDirt : Item :=
  { type := "minecraft:dirt", amount := 64, item_meta := none, data := some 0 }

/-- The air sentinel stack. -/
def wAir : Item :=
  { type := "minecraft:air", amount := 0, item_meta := none, data := none }

/-- A player with occupied, empty and air slots, equipment and an ender
chest. -/
def wPlayer : Player :=
  { xuid := "x1", name := "Steve", inventory := [none, some wSword, some wAir, some wDirt],
    helmet := some wDirt, chestplate := none, leggings := none, boots := none,
    item_in_off_hand := some wSword, ender_chest := [some wDirt] }

/-- A player whose slots are all empty or air. -/
def wEmptyPlayer : Player :=
  { xuid := "x2", name := "Alex", inventory := [none, some wAir], helmet := none,
    chestplate := some wAir, leggings := none, boots := none, item_in_off_hand := none,
    ender_chest := [none, some wAir] }

/-- A player whose only non-empty item is a helmet. -/
def wHelmetPlayer : Player :=
  { xuid := "x3", name := "Kai", inventory := [none, some wAir], helmet := some wDirt,
    chestplate := none, leggings := none, boots := none, item_in_off_hand := none,
    ender_chest := [] }

/-- A pre-existing stored row for the witness player, superseded by the
witness saves. -/
def wOldRow : InvRow :=
  { xuid := "x1", name := "Steve", slot_type := "slot", slot := some 9,
    type := some "minecraft:stone", amount := some 2, damage := some 0,
    display_name := some "", enchants := some "\x7b\x7d", lore := some "[]",
    unbreakable := some 0, data := none }

/-- A stored row whose enchantment text is not valid JSON and whose
numeric columns are NULL. -/
def wCorruptRow : InvRow :=
  { xuid := "x9", name := "Mallory", slot_type := "slot", slot := none,
    type := some "minecraft:stone", amount := none, damage := none,
    display_name := none, enchants := some "\x7b", lore := some "not json",
    unbreakable := none, data := none }

/-- A stored row whose text columns hold the sentinel strings. -/
def wSentinelRow : InvRow :=
  { xuid := "x9", name := "Mallory", slot_type := "slot", slot := some 0,
    type := some "minecraft:stone", amount := some 1, damage := some 0,
    display_name := none, enchants := some "0", lore := some "null",
    unbreakable := some 0, data := none }

/-- An ender-chest row whose text columns hold sentinel strings. -/
def wSentinelEnderRow : EnderRow :=
  { xuid := "x9", name := "Mallory", slot := some 0,
    type := some "minecraft:stone", amount := some 1, damage := some 0,
    display_name := none, enchants := some "", lore := some "0",
    unbreakable := some 0, data := none }

/-- A store with one stale row for the witness player. -/
def wDB : DBState := { users := [], inventories := [wOldRow], ender_chests := [] }

/-- A store holding only the corrupt row. -/
def wCorruptDB : DBState := { users := [], inventories := [wCorruptRow], ender_chests := [] }

/-- The user directory of the spec's name-matching example. -/
def wUsers : DBState :=
  { users := [{ xuid := "a", name := "Steve", last_join := 10, last_leave := 0 },
      { xuid := "b", name := "steve_alt", last_join := 20, last_leave := 3 },
      { xuid := "c", name := "Bob", last_join := 5, last_leave := 0 }],
    inventories := [], ender_chests := [] }

/-- A directory with one user who already has a recorded leave time. -/
def wUserDB : DBState :=
  { users := [{ xuid := "u1", name := "Old", last_join := 1, last_leave := 99 }],
    inventories := [], ender_chests := [] }

/-! ### Witnesses -/

/-- Witness for C1: the round trip at a concrete enchanted player over a
store holding a stale row. -/
theorem c1_witness :
    (∀ oit ∈ wPlayer.inventory
        ++ [wPlayer.helmet, wPlayer.chestplate, wPlayer.leggings, wPlayer.boots,
          wPlayer.item_in_off_hand],
      ∀ it, oit = some it → it.type ≠ "")
    ∧ get_inventory (save_inventory wDB wPlayer) wPlayer.xuid = liveRecords wPlayer := by
  have hd : ∀ oit ∈ wPlayer.inventory
      ++ [wPlayer.helmet, wPlayer.chestplate, wPlayer.leggings, wPlayer.boots,
        wPlayer.item_in_off_hand],
      (match oit with
       | none => true
       | some it => decide (it.type ≠ "")) = true := by decide
  have hA : ∀ oit ∈ wPlayer.inventory
      ++ [wPlayer.helmet, wPlayer.chestplate, wPlayer.leggings, wPlayer.boots,
        wPlayer.item_in_off_hand],
      ∀ it, oit = some it → it.type ≠ "" := by
    intro oit hoit it hit
    have h := hd oit hoit
    rw [hit] at h
    simpa using h
  exact ⟨hA, c1_save_get_inventory_roundtrip wDB wPlayer hA⟩

/-- Witness for C3: the corrupt row decodes with an empty enchantment
mapping and default numerics, and is still returned. -/
theorem c3_witness :
    json_loads "\x7b" = none
    ∧ (decodeInvRow wCorruptRow).enchants = Json.obj []
    ∧ decodeInvRow wCorruptRow ∈ get_inventory wCorruptDB "x9"
    ∧ (decodeInvRow wCorruptRow).lore = Json.arr []
    ∧ (decodeInvRow wCorruptRow).slot = 0
    ∧ (decodeInvRow wCorruptRow).amount = 1
    ∧ (decodeInvRow wCorruptRow).damage = 0
    ∧ (decodeInvRow wCorruptRow).unbreakable = false := by
  have h := c3_corrupt_row_resilience wCorruptDB "x9" wCorruptRow
    (by simp [wCorruptDB]) rfl "\x7b" rfl rfl
  exact ⟨rfl, h.1, h.2.1, h.2.2.2.2.1 wCorruptRow "not json" rfl rfl,
    h.2.2.2.2.2.1 wCorruptRow rfl, h.2.2.2.2.2.2.1 wCorruptRow rfl,
    h.2.2.2.2.2.2.2.1 wCorruptRow rfl, h.2.2.2.2.2.2.2.2 wCorruptRow rfl⟩

/-- Witness for C4 (amended): the pattern "eve" has no metacharacters, and
the search over the spec's example directory is a sorted permutation of
the substring matches. -/
theorem c4_witness :
    (∀ c ∈ ("eve" : String).data, c ≠ '%' ∧ c ≠ '_')
    ∧ (search_users_by_name wUsers "eve").Perm
        (wUsers.users.filter (fun u => specNameMatches "eve" u.name))
    ∧ List.Sorted joinDescOrder (search_users_by_name wUsers "eve") := by
  have h := c4_name_matching_amended wUsers "eve" (by decide)
  exact ⟨by decide, h.2.1, h.2.2.1⟩

/-- Witness for C5: re-saving the user resets the recorded leave time 99
to the default 0. -/
theorem c5_witness :
    (save_user wUserDB "u1" "New" 50).users.filter (fun u => u.xuid = "u1")
      = [{ xuid := "u1", name := "New", last_join := 50, last_leave := 0 }] :=
  (c5_save_user_upsert wUserDB "u1" "New" 50).1

/-- Witness for C7: an all-empty player saves to an empty decoded
inventory. -/
theorem c7_witness :
    (∀ oit ∈ wEmptyPlayer.inventory, emptyOrAir oit)
    ∧ get_inventory (save_inventory wDB wEmptyPlayer) wEmptyPlayer.xuid = []
    ∧ get_enderchest (save_enderchest wDB wEmptyPlayer) wEmptyPlayer.xuid = [] := by
  have h1 : ∀ oit ∈ wEmptyPlayer.inventory, emptyOrAir oit := by
    intro oit hoit
    simp [wEmptyPlayer] at hoit
    rcases hoit with h | h <;> subst h
    · trivial
    · rfl
  have h2 : ∀ oit ∈ [wEmptyPlayer.helmet, wEmptyPlayer.chestplate, wEmptyPlayer.leggings,
      wEmptyPlayer.boots, wEmptyPlayer.item_in_off_hand], emptyOrAir oit := by
    intro oit hoit
    simp [wEmptyPlayer] at hoit
    rcases hoit with h | h | h <;> subst h <;> trivial
  have h3 : ∀ oit ∈ wEmptyPlayer.ender_chest, emptyOrAir oit := by
    intro oit hoit
    simp [wEmptyPlayer] at hoit
    rcases hoit with h | h <;> subst h
    · trivial
    · rfl
  have h := c7_skip_empty wDB wDB wDB wEmptyPlayer wEmptyPlayer h1 h2 h3
  exact ⟨h1, h.1.2, h.2.1.2⟩

/-- Witness for C8: the helmet-only player stores exactly one "helmet"
row with slot index 0. -/
theorem c8_witness :
    (save_inventory wDB wHelmetPlayer).inventories.filter
        (fun r => r.xuid = wHelmetPlayer.xuid)
      = [encodeInvItem wHelmetPlayer.xuid wHelmetPlayer.name "helmet" 0 wDirt]
    ∧ (encodeInvItem wHelmetPlayer.xuid wHelmetPlayer.name "helmet" 0 wDirt).slot_type
        = "helmet"
    ∧ (encodeInvItem wHelmetPlayer.xuid wHelmetPlayer.name "helmet" 0 wDirt).slot
        = some 0 := by
  have h1 : ∀ oit ∈ wHelmetPlayer.inventory, emptyOrAir oit := by
    intro oit hoit
    simp [wHelmetPlayer] at hoit
    rcases hoit with h | h <;> subst h
    · trivial
    · rfl
  have h := c8_helmet_only wDB wHelmetPlayer wDirt h1 rfl (by decide)
    trivial trivial trivial trivial
  exact ⟨h.1, h.2.1, h.2.2.1⟩

/-- Witness for C9: recording a leave time for an unknown identifier
leaves the store untouched. -/
theorem c9_witness : update_user_leave_time wUserDB "zz" 7 = wUserDB :=
  (c9_record_leave_isolation wUserDB "zz" 7).1 (by decide)

/-- Witness for C10: the sentinel rows decode to empty mapping and empty
sequence. -/
theorem c10_witness :
    (decodeInvRow wSentinelRow).enchants = Json.obj []
    ∧ (decodeInvRow wSentinelRow).lore = Json.arr []
    ∧ (decodeEnderRow wSentinelEnderRow).enchants = Json.obj []
    ∧ (decodeEnderRow wSentinelEnderRow).lore = Json.arr []
    ∧ (decodeInvRow wSentinelRow).lore ≠ Json.num 0 := by
  have h := c10_sentinel_text_fields wSentinelRow wSentinelEnderRow
  exact ⟨h.1 "0" rfl (Or.inr (Or.inl rfl)),
    h.2.2.1 "null" rfl (Or.inl rfl),
    h.2.2.2.2.1 "" rfl (Or.inr (Or.inr rfl)),
    h.2.2.2.2.2.2.1 "0" rfl (Or.inr (Or.inl rfl)),
    h.2.2.2.2.2.2.2.2 "null" rfl (Or.inl rfl)⟩

end InvMan
